import Mathlib

/-!
# Verification of the explainerdashboard component-composition layer

A shallow embedding of the two source files
`explainerdashboard/dashboard_components/dashboard_methods.py` and
`explainerdashboard/dashboard_components/composites.py`, together with
theorems settling the specification claims about them.

Conventions used throughout the embedding:

* Python ordered dicts of signature parameters are modelled as ordered
  association lists (`List Param`); `dict.update` / `dict.pop` / item
  assignment are modelled faithfully, including in-place value replacement
  for an existing key.
* The component tree (`ExplainerComponent` with its `_components` list) is
  modelled as a mutual inductive rose tree `Component` / `Components`.
* Python's `list(set(xs))` returns the elements of `xs` without duplicates
  in an unspecified (hash-dependent) order; it is modelled as `List.dedup`,
  and all claims about such values are stated and proved at the level of
  sets (membership) and duplicate-freeness, never at the level of order.
* Exceptions are modelled by `Except String` or by an explicit "raised"
  boolean paired with the state that was already mutated when the
  exception was thrown (Python mutations persist past a raise).
-/

set_option linter.unusedVariables false

/-! ## Signatures and `delegates_kwargs` (dashboard_methods.py lines 24-46) -/

deriving instance DecidableEq for Except

/-- The kind of an `inspect.Parameter`, in the order CPython assigns to
the `Parameter.kind` enum (`POSITIONAL_ONLY < POSITIONAL_OR_KEYWORD <
VAR_POSITIONAL < KEYWORD_ONLY < VAR_KEYWORD`). -/
inductive ParamKind where
  | positional_only
  | positional_or_keyword
  | var_positional
  | keyword_only
  | var_keyword
deriving DecidableEq, Repr

/-- The numeric value of a parameter kind, used for the order check of
the signature validation. -/
def ParamKind.toNat : ParamKind → Nat
  | .positional_only => 0
  | .positional_or_keyword => 1
  | .var_positional => 2
  | .keyword_only => 3
  | .var_keyword => 4

/-- The kinds subjected to the default-ordering check
(`kind in (_POSITIONAL_ONLY, _POSITIONAL_OR_KEYWORD)`). -/
def ParamKind.isPositional : ParamKind → Bool
  | .positional_only => true
  | .positional_or_keyword => true
  | _ => false

/-- One parameter of a Python function signature, as far as
`delegates_kwargs` and the `Signature` validation inspect it: its name,
its kind, and whether it carries a default value
(`v.default != inspect.Parameter.empty`; a `VAR_POSITIONAL` or
`VAR_KEYWORD` parameter never has one). -/
structure Param where
  name : String
  kind : ParamKind
  hasDefault : Bool
deriving DecidableEq, Repr

/-- The parameter validation performed by `inspect.Signature.__init__`
when line 44, `from_f.__signature__ = sig.replace(parameters=sigd.values())`,
rebuilds the signature: walking the parameters with the loop state
`top_kind` (initially `POSITIONAL_ONLY`), `kind_defaults` (initially
`False`, reset whenever the kind increases) and the `params` dict of
names seen so far, it raises `ValueError` when a kind decreases
(`wrong parameter order`), when a positional parameter without a default
follows one with a default in the same kind run (`non-default argument
follows default argument`), or when a name repeats (`duplicate parameter
name`). -/
def validateParams : List Param → ParamKind → Bool → List String → Bool
  | [], _, _, _ => true
  | p :: rest, top_kind, kind_defaults, seen =>
    if p.kind.toNat < top_kind.toNat then false
    else
      let kind_defaults1 :=
        if top_kind.toNat < p.kind.toNat then false else kind_defaults
      let top_kind1 :=
        if top_kind.toNat < p.kind.toNat then p.kind else top_kind
      if p.kind.isPositional && !p.hasDefault && kind_defaults1 then false
      else
        let kind_defaults2 :=
          if p.kind.isPositional && p.hasDefault then true
          else kind_defaults1
        if seen.contains p.name then false
        else validateParams rest top_kind1 kind_defaults2 (p.name :: seen)

/-- `Signature(parameters=...)` validation, started from the initial loop
state of `inspect.Signature.__init__`. -/
def validParameters (params : List Param) : Bool :=
  validateParams params .positional_only false []

/-- `k in d` for an ordered dict of parameters keyed by name. -/
def hasKey (d : List Param) (k : String) : Bool :=
  d.any (fun p => p.name == k)

/-- `d.pop(k)`: returns the removed entry and the remaining dict (order
preserved), or `none` when the key is absent (Python raises `KeyError`). -/
def dictPop (d : List Param) (k : String) : Option (Param × List Param) :=
  match d.find? (fun p => p.name == k) with
  | none => none
  | some p => some (p, d.eraseP (fun q => q.name == k))

/-- `d.update(s)` on ordered dicts: values of keys already present are
replaced in place (keeping their position), new keys are appended in the
order of `s`. -/
def dictUpdate (d s : List Param) : List Param :=
  d.map (fun p =>
    match s.find? (fun q => q.name == p.name) with
    | some q => q
    | none => p)
  ++ s.filter (fun q => !(hasKey d q.name))

/-- The dict comprehension of `delegates_kwargs`:
`{k: v for k, v in inspect.signature(to_f).parameters.items()
  if v.default != inspect.Parameter.empty and k not in sigd}`. -/
def s2OfTarget (sigd target : List Param) : List Param :=
  target.filter (fun p => p.hasDefault && !(hasKey sigd p.name))

/-- `delegates_kwargs(to, keep)` applied to a function whose signature is
`sig` (the signature of `f.__init__` when `to is None`, of `f` itself
otherwise).  `to` is the parameter list of the delegation target when
given; `bases` are the parameter lists of the `__init__` methods of
`f.__bases__`, used only when `to` is `none`.  Raises (`.error`) when
`sigd.pop('kwargs')` raises `KeyError`, or when the final
`sig.replace(parameters=sigd.values())` on line 44 rejects the rebuilt
parameter list with `ValueError`; only on a valid list is the new
signature produced (and assigned to `from_f.__signature__`). -/
def delegates_kwargs (toArg : Option (List Param)) (keep : Bool)
    (bases : List (List Param)) (sig : List Param) : Except String (List Param) :=
  match dictPop sig "kwargs" with
  | none => .error "KeyError"
  | some (k, sigd0) =>
    let sigd1 :=
      match toArg with
      | none => bases.foldl (fun sigd base => dictUpdate sigd (s2OfTarget sigd base)) sigd0
      | some target => dictUpdate sigd0 (s2OfTarget sigd0 target)
    let newParams := if keep then dictUpdate sigd1 [k] else sigd1
    if validParameters newParams then .ok newParams
    else .error "ValueError"

/-- The original `kwargs` parameter of `sig` (the `k` popped by the code). -/
def kwargsParamOf (sig : List Param) : Param :=
  (sig.find? (fun p => p.name == "kwargs")).getD ⟨"kwargs", .var_keyword, false⟩

/-- `sig` with its `kwargs` parameter removed, all other parameters kept
unchanged and in their original order. -/
def removeKwargs (sig : List Param) : List Param :=
  sig.eraseP (fun p => p.name == "kwargs")

/-- Appending, base class by base class, every parameter of the base that
has a default value and whose name is not already in the signature built
so far. -/
def specAppendBases (sigd : List Param) (bases : List (List Param)) : List Param :=
  bases.foldl (fun acc base => acc ++ s2OfTarget acc base) sigd

/-- The behaviour of `delegates_kwargs` exactly as the specification claim
words it: the `kwargs` parameter is removed, every defaulted parameter of
the delegation target (or of each base `__init__` in turn, when
`to is None`) whose name is not already in the signature is appended in
order, and with `keep=True` the original `kwargs` parameter is re-appended
at the very end. -/
def delegates_kwargs_claimed (toArg : Option (List Param)) (keep : Bool)
    (bases : List (List Param)) (sig : List Param) : List Param :=
  let kept := removeKwargs sig
  let appended :=
    match toArg with
    | none => specAppendBases kept bases
    | some target => kept ++ s2OfTarget kept target
  if keep then appended ++ [kwargsParamOf sig] else appended

/-- No parameter of the delegation target is a defaulted parameter named
`kwargs` (such a parameter would be appended by the delegation step and
then overwritten in place, rather than left alone, by `keep=True`). -/
def noDefaultedKwargs (target : List Param) : Bool :=
  target.all (fun p => !(p.name == "kwargs" && p.hasDefault))

/-- All delegation targets actually used by the call satisfy
`noDefaultedKwargs`: the single target when `to` is given, every base
`__init__` otherwise. -/
def targetsSafe (toArg : Option (List Param)) (bases : List (List Param)) : Bool :=
  match toArg with
  | some target => noDefaultedKwargs target
  | none => bases.all noDefaultedKwargs

/-! ## The component tree (`ExplainerComponent`, dashboard_methods.py lines 99-244) -/

/-- A `PosLabelSelector` instance, as far as the claims inspect it: its
unique `name` attribute (set by `ExplainerComponent.__init__`). -/
structure PosLabelSelector where
  name : String
deriving DecidableEq, Repr

/-- The layout returned by `PosLabelSelector.layout` (lines 271-282): for a
classifier explainer a dropdown, otherwise a hidden input, in both cases
with element id `'pos-label-' + self.name`. -/
inductive PosLabelSelectorLayout where
  | dropdown (elementId : String)
  | hiddenInput (elementId : String)
deriving DecidableEq, Repr

/-- `PosLabelSelector.layout(self)`, keeping only the element carrying the
id (the surrounding `html.Div`, label and dropdown options are not
inspected by any claim). -/
def PosLabelSelector.layout (s : PosLabelSelector) (is_classifier : Bool) :
    PosLabelSelectorLayout :=
  if is_classifier then .dropdown ("pos-label-" ++ s.name)
  else .hiddenInput ("pos-label-" ++ s.name)

/-- The element id of the layout element. -/
def PosLabelSelectorLayout.elementId : PosLabelSelectorLayout → String
  | .dropdown i => i
  | .hiddenInput i => i

mutual
/-- The state of an `ExplainerComponent` instance that the tree-walking
methods inspect:

* `typeStr` — the string `str(type(self))`, e.g.
  `"<class \x27explainerdashboard.dashboard_components.connectors.PosLabelConnector\x27>"`,
  tested by `has_pos_label_connector`;
* `selector` — `some s` when the instance has an attribute named
  `selector` holding a `PosLabelSelector` instance `s`
  (`hasattr(self, 'selector') and isinstance(self.selector, PosLabelSelector)`),
  `none` otherwise;
* `deps` — the current contents of `self._dependencies`;
* `subs` — the current contents of `self._components`, in registration
  order. -/
inductive Component where
  | mk (typeStr : String) (selector : Option PosLabelSelector)
       (deps : List String) (subs : Components)
/-- The `_components` list of a component: a list of `Component`. -/
inductive Components where
  | nil
  | cons (c : Component) (cs : Components)
end

deriving instance DecidableEq for Component, Components
deriving instance Repr for Component, Components

/-- `str(type(self))` of a component. -/
def Component.typeStr : Component → String
  | .mk t _ _ _ => t

/-- The `selector` attribute of a component, when it is a `PosLabelSelector`. -/
def Component.selector : Component → Option PosLabelSelector
  | .mk _ s _ _ => s

/-- The `_dependencies` list of a component. -/
def Component.rootDeps : Component → List String
  | .mk _ _ d _ => d

/-- The `_components` list of a component. -/
def Component.subs : Component → Components
  | .mk _ _ _ cs => cs

/-- The `_components` list as a Lean `List`. -/
def Components.toList : Components → List Component
  | .nil => []
  | .cons c cs => c :: Components.toList cs

mutual
/-- The `dependencies` property (lines 187-199), as the value it returns:
`deps = self._dependencies`, extended with `comp.dependencies` for each
registered subcomponent, then `list(set(deps))` (modelled as `dedup`; order
of the returned list is unspecified in Python). -/
def Component.dependencies : Component → List String
  | .mk _ _ deps subs => (deps ++ Components.depsList subs).dedup
/-- The concatenation of `comp.dependencies` over a `_components` list. -/
def Components.depsList : Components → List String
  | .nil => []
  | .cons c cs => Component.dependencies c ++ Components.depsList cs
end

mutual
/-- All dependency strings registered anywhere in the tree rooted at a
component: its own `_dependencies` plus, recursively, those of every
registered subcomponent. -/
def Component.allDeps : Component → List String
  | .mk _ _ deps subs => deps ++ Components.allDepsList subs
/-- `allDeps` concatenated over a `_components` list. -/
def Components.allDepsList : Components → List String
  | .nil => []
  | .cons c cs => Component.allDeps c ++ Components.allDepsList cs
end

mutual
/-- The `pos_labels` property (lines 201-214), as the value it returns:
starts from `[]`, appends `'pos-label-' + self.selector.name` when the
component has a `PosLabelSelector` in its `selector` attribute, extends
with `comp.pos_labels` of every registered subcomponent, then
`list(set(...))` (modelled as `dedup`). -/
def Component.pos_labels : Component → List String
  | .mk _ sel _ subs =>
    ((match sel with
      | some s => ["pos-label-" ++ s.name]
      | none => []) ++ Components.posLabelsList subs).dedup
/-- `pos_labels` concatenated over a `_components` list. -/
def Components.posLabelsList : Components → List String
  | .nil => []
  | .cons c cs => Component.pos_labels c ++ Components.posLabelsList cs
end

mutual
/-- Every `PosLabelSelector` held in a `selector` attribute anywhere in
the tree rooted at a component (the component itself included). -/
def Component.treeSelectors : Component → List PosLabelSelector
  | .mk _ sel _ subs =>
    (match sel with
      | some s => [s]
      | none => []) ++ Components.treeSelectorsList subs
/-- `treeSelectors` concatenated over a `_components` list. -/
def Components.treeSelectorsList : Components → List PosLabelSelector
  | .nil => []
  | .cons c cs => Component.treeSelectors c ++ Components.treeSelectorsList cs
end

mutual
/-- Every component in the tree rooted at a component: the component
itself and, recursively, the trees of all registered subcomponents. -/
def Component.treeNodes : Component → List Component
  | .mk t s d subs => .mk t s d subs :: Components.treeNodesList subs
/-- `treeNodes` concatenated over a `_components` list. -/
def Components.treeNodesList : Components → List Component
  | .nil => []
  | .cons c cs => Component.treeNodes c ++ Components.treeNodesList cs
end

/-- The strict descendants of a component: every component in the trees of
its registered subcomponents (the component itself excluded). -/
def Component.strictDescendants : Component → List Component
  | .mk _ _ _ subs => Components.treeNodesList subs

mutual
/-- `register_callbacks(app)` (lines 236-244), modelled on an `app` that
records the components whose `_register_callbacks(app)` ran, in order:
first `comp.register_callbacks(app)` for each registered subcomponent in
registration order, then the component's own `_register_callbacks(app)`
(which appends the component itself to the record). -/
def Component.register_callbacks (c : Component) (app : List Component) :
    List Component :=
  match c with
  | .mk t s d subs => Components.registerCallbacksList subs app ++ [.mk t s d subs]
/-- The loop `for comp in self._components: comp.register_callbacks(app)`. -/
def Components.registerCallbacksList (cs : Components) (app : List Component) :
    List Component :=
  match cs with
  | .nil => app
  | .cons c rest =>
    Components.registerCallbacksList rest (Component.register_callbacks c app)
end

mutual
/-- The sequence of components whose `_register_callbacks` is invoked by
`register_callbacks`, in invocation order. -/
def Component.callbackTrace : Component → List Component
  | .mk t s d subs => Components.callbackTraceList subs ++ [.mk t s d subs]
/-- `callbackTrace` concatenated over a `_components` list. -/
def Components.callbackTraceList : Components → List Component
  | .nil => []
  | .cons c cs => Component.callbackTrace c ++ Components.callbackTraceList cs
end

mutual
/-- `has_pos_label_connector` (lines 162-170): walks `self._components`;
returns `True` at the first subcomponent whose `str(type(comp))` ends with
`"PosLabelConnector'>"` or whose own recursive call returns `True`;
returns `False` when the loop finishes.  The component itself is never
tested. -/
def Component.has_pos_label_connector : Component → Bool
  | .mk _ _ _ subs => Components.hasPosLabelConnectorList subs
/-- The loop of `has_pos_label_connector` over `self._components`. -/
def Components.hasPosLabelConnectorList : Components → Bool
  | .nil => false
  | .cons c cs =>
    if c.typeStr.endsWith "PosLabelConnector\x27>" then true
    else if Component.has_pos_label_connector c then true
    else Components.hasPosLabelConnectorList cs
end

mutual
/-- The `dependencies` property read with its side effect (lines 187-199):
`deps = self._dependencies` aliases the attribute, the loop
`deps.extend(comp.dependencies)` therefore extends `self._dependencies` in
place with each subcomponent's (recursively mutating) `dependencies`
value, and only then does `deps = list(set(deps))` rebind the local name.
Returns the pair (returned value, component state after the read). -/
def Component.dependenciesRun : Component → List String × Component
  | .mk t s deps subs =>
    let p := Components.dependenciesRunList subs
    let newDeps := deps ++ p.1
    (newDeps.dedup, .mk t s newDeps p.2)
/-- The loop `for comp in self._components: deps.extend(comp.dependencies)`:
returns the concatenation of the returned values and the mutated
`_components` list. -/
def Components.dependenciesRunList : Components → List String × Components
  | .nil => ([], .nil)
  | .cons c cs =>
    let q := Component.dependenciesRun c
    let r := Components.dependenciesRunList cs
    (q.1 ++ r.1, .cons q.2 r.2)
end

/-! ## `register_components` and `register_dependencies`
(dashboard_methods.py lines 145-160 and 172-185) -/

/-- A Python object as passed to `register_components` /
`register_dependencies`:

* `comp c` — an `ExplainerComponent` instance;
* `str s` — a `str` instance (iterable; its elements are its
  one-character substrings; has no `__name__` attribute);
* `iterable xs` — any other non-`str` instance with an `__iter__`
  attribute, e.g. a `list` or `tuple` (such instances have no `__name__`
  attribute);
* `other hasName` — any other object; `hasName` records whether it has a
  `__name__` attribute (classes and functions do, most instances do not).

`ExplainerComponent` instances have neither `__iter__` nor `__name__`. -/
inductive PyVal where
  | comp (c : Component)
  | str (s : String)
  | iterable (xs : List PyVal)
  | other (hasName : Bool)

/-- The inner loop `for subcomp in comp:` of `register_components`:
appends `ExplainerComponent` elements to `self._components`; for any other
element evaluates `print(f"{subcomp.__name__} ...")`, which raises
`AttributeError` when the element has no `__name__` attribute.  Returns
the `_components` list at exit and whether an exception was raised (Python
in-place appends made before the raise persist). -/
def register_components_inner (comps : List Component) :
    List PyVal → List Component × Bool
  | [] => (comps, false)
  | x :: rest =>
    match x with
    | .comp c => register_components_inner (comps ++ [c]) rest
    | .str _ => (comps, true)
    | .iterable _ => (comps, true)
    | .other hasName =>
      if hasName then register_components_inner comps rest else (comps, true)

/-- `register_components(*components)` (lines 145-160), run on the current
`self._components` list: appends `ExplainerComponent` arguments; iterates
one level into any other argument having `__iter__` (note that a `str` is
iterable: a non-empty `str` argument raises `AttributeError` at its first
character, an empty one contributes nothing); for a remaining argument
evaluates `print(f"{comp.__name__} ...")`, raising `AttributeError` when
the argument has no `__name__`.  Returns the `_components` list at exit
and whether an exception was raised. -/
def register_components_run (comps : List Component) :
    List PyVal → List Component × Bool
  | [] => (comps, false)
  | arg :: rest =>
    match arg with
    | .comp c => register_components_run (comps ++ [c]) rest
    | .str s =>
      if s.isEmpty then register_components_run comps rest else (comps, true)
    | .iterable xs =>
      let p := register_components_inner comps xs
      if p.2 then p else register_components_run p.1 rest
    | .other hasName =>
      if hasName then register_components_run comps rest else (comps, true)

/-- The inner loop `for subdep in dep:` of `register_dependencies`:
appends `str` elements to `self._dependencies`, otherwise evaluates
`print(f"{subdep.__name__} ...")` (raising `AttributeError` for elements
without `__name__`). -/
def register_dependencies_inner (deps : List String) :
    List PyVal → List String × Bool
  | [] => (deps, false)
  | x :: rest =>
    match x with
    | .str s => register_dependencies_inner (deps ++ [s]) rest
    | .other hasName =>
      if hasName then register_dependencies_inner deps rest else (deps, true)
    | .comp _ => (deps, true)
    | .iterable _ => (deps, true)

/-- `register_dependencies(*dependencies)` (lines 172-185), run on the
current `self._dependencies` list: appends `str` arguments; iterates one
level into any non-`str` argument having `__iter__`; for a remaining
argument evaluates `print(f"{dep.__name__} ...")`, raising
`AttributeError` when it has no `__name__` (in particular an
`ExplainerComponent` argument raises). -/
def register_dependencies_run (deps : List String) :
    List PyVal → List String × Bool
  | [] => (deps, false)
  | arg :: rest =>
    match arg with
    | .str s => register_dependencies_run (deps ++ [s]) rest
    | .iterable xs =>
      let p := register_dependencies_inner deps xs
      if p.2 then p else register_dependencies_run p.1 rest
    | .comp _ => (deps, true)
    | .other hasName =>
      if hasName then register_dependencies_run deps rest else (deps, true)

/-- The components that the specification claim says a
`register_components` call appends: arguments that are
`ExplainerComponent` instances, plus elements of iterable arguments that
are `ExplainerComponent` instances, in the order given; anything nested
more than one iterable level deep is not extracted. -/
def extractOneLevel : List PyVal → List Component
  | [] => []
  | .comp c :: rest => c :: extractOneLevel rest
  | .iterable xs :: rest =>
    xs.filterMap (fun x =>
      match x with
      | .comp c => some c
      | _ => none) ++ extractOneLevel rest
  | _ :: rest => extractOneLevel rest

/-- An argument to `register_components` that is processed without raising
`AttributeError`: a component, an empty `str`, an iterable whose
non-component elements all have `__name__`, or a non-iterable object with
`__name__`. -/
def argSafe : PyVal → Bool
  | .comp _ => true
  | .str s => s.isEmpty
  | .iterable xs =>
    xs.all (fun x =>
      match x with
      | .comp _ => true
      | .other hasName => hasName
      | _ => false)
  | .other hasName => hasName

/-! ## The six composite classes (composites.py)

The constructors of the registered subcomponents (`PrecisionComponent`,
`CutoffConnector`, `IndexConnector`, ... ) live in source files not under
verification here (`classifier_components.py`, `connectors.py`, ...); each
composite `__init__` is therefore modelled as a function of the
already-constructed subcomponent objects, which is exactly the part of the
logic that `composites.py` contributes: storing them on attributes and
passing them to `register_components` (after `super().__init__` has set
`self._components = []`). -/

/-- `ClassifierModelStatsComposite.__init__` (lines 49-68): the
`_components` list after the single `register_components` call on the
eight constructed subcomponents. -/
def ClassifierModelStatsComposite_components
    (precision confusionmatrix liftcurve classification rocauc prauc
      cutoffpercentile cutoffconnector : Component) : List Component :=
  (register_components_run []
    [.comp precision, .comp confusionmatrix, .comp liftcurve,
     .comp classification, .comp rocauc, .comp prauc,
     .comp cutoffpercentile, .comp cutoffconnector]).1

/-- `RegressionModelStatsComposite.__init__` (lines 136-149): the
`_components` list after `register_components` is called with one list
argument holding the four constructed subcomponents. -/
def RegressionModelStatsComposite_components
    (preds_vs_actual modelsummary residuals residuals_vs_col : Component) :
    List Component :=
  (register_components_run []
    [.iterable [.comp preds_vs_actual, .comp modelsummary,
                .comp residuals, .comp residuals_vs_col]]).1

/-- `IndividualPredictionsComposite.__init__` (lines 199-222): the
`_components` list after the single `register_components` call on the six
constructed subcomponents (`index` is the one component constructed by
whichever of the `is_classifier` / `is_regression` branches ran). -/
def IndividualPredictionsComposite_components
    (index summary contributions pdp contributions_list index_connector :
      Component) : List Component :=
  (register_components_run []
    [.comp index, .comp summary, .comp contributions,
     .comp pdp, .comp contributions_list, .comp index_connector]).1

/-- `ShapDependenceComposite.__init__` (lines 271-283): the `_components`
list after the single `register_components` call on the three constructed
subcomponents. -/
def ShapDependenceComposite_components
    (shap_summary shap_dependence connector : Component) : List Component :=
  (register_components_run []
    [.comp shap_summary, .comp shap_dependence, .comp connector]).1

/-- `ShapInteractionsComposite.__init__` (lines 316-325): the
`_components` list after the single `register_components` call on the
three constructed subcomponents. -/
def ShapInteractionsComposite_components
    (interaction_summary interaction_dependence connector : Component) :
    List Component :=
  (register_components_run []
    [.comp interaction_summary, .comp interaction_dependence,
     .comp connector]).1

/-- `DecisionTreesComposite.__init__` (lines 359-373): the `_components`
list after the single `register_components` call on the six constructed
subcomponents. -/
def DecisionTreesComposite_components
    (index trees decisionpath_table decisionpath_graph index_connector
      highlight_connector : Component) : List Component :=
  (register_components_run []
    [.comp index, .comp trees, .comp decisionpath_table,
     .comp decisionpath_graph, .comp index_connector,
     .comp highlight_connector]).1

/-! ## `ExplainerComponent.__init__` (dashboard_methods.py lines 123-144)
and `calculate_dependencies` (lines 216-225) -/

/-- The attribute state set up by `ExplainerComponent.__init__`.
(`self.explainer` is the opaque explainer object and is not recorded.) -/
structure ExplainerComponentState where
  title : Option String
  name : Option String
  components : Components
  dependencies : List String
deriving DecidableEq, Repr

/-- `ExplainerComponent.__init__(explainer, title, name, header_mode)`:
raises `ValueError` when `header_mode is not None`; otherwise stores
`self.name = name`, replaces it by `shortuuid.ShortUUID().random(length=10)`
when it is `None` (the generated string is the `uuid` argument here,
injected because the generator is an external library), and initializes
`self._components` and `self._dependencies` to fresh empty lists. -/
def ExplainerComponent_init (title name header_mode : Option String)
    (uuid : String) : Except String ExplainerComponentState :=
  match header_mode with
  | some _ =>
    .error ("header_mode has been deprecated! You can just " ++
      "leave it from the constructor now.")
  | none =>
    let name0 := name
    let name1 := match name0 with
      | none => some uuid
      | some s => some s
    .ok { title := title, name := name1,
          components := .nil, dependencies := [] }

/-- The message of the `ValueError` that the `except` branch of
`calculate_dependencies` constructs.  In the source the second line of the
message is a plain (non-f) string literal, so the `\x7bdep\x7d` there is
literal text. -/
def calc_dep_error_message (dep : String) : String :=
  "Failed to generate dependency \x27" ++ dep ++ "\x27: " ++
  "Failed to calculate or retrieve explainer property explainer.\x7bdep\x7d..."

/-- The loop of `calculate_dependencies` over the `dependencies` list:
`_ = getattr(self.explainer, dep)` inside `try`; when the lookup raises,
the `except` branch evaluates `ValueError(...)` — the exception object is
constructed and immediately discarded, it is never raised — and the loop
continues. -/
def calculate_dependencies_loop (getattr : String → Except String Unit) :
    List String → Except String Unit
  | [] => .ok ()
  | dep :: rest =>
    match getattr dep with
    | .ok _ => calculate_dependencies_loop getattr rest
    | .error _ =>
      let _unraised := calc_dep_error_message dep
      calculate_dependencies_loop getattr rest

/-- `calculate_dependencies()` (lines 216-225), with the explainer's
attribute lookup `getattr(self.explainer, dep)` supplied as a function
that may raise (return `.error`). -/
def calculate_dependencies (getattr : String → Except String Unit)
    (c : Component) : Except String Unit :=
  calculate_dependencies_loop getattr (Component.dependencies c)

/-! ## Helper lemmas on the tree walks -/

/-- `treeNodes` unfolded on an abstract component. -/
theorem Component.treeNodes_eq (c : Component) :
    Component.treeNodes c = c :: Components.treeNodesList c.subs := by
  match c with
  | .mk t s d subs => rfl

/-- `strictDescendants` unfolded on an abstract component. -/
theorem Component.strictDescendants_eq (c : Component) :
    Component.strictDescendants c = Components.treeNodesList c.subs := by
  match c with
  | .mk t s d subs => rfl

/-- `has_pos_label_connector` unfolded on an abstract component. -/
theorem Component.has_pos_label_connector_eq (c : Component) :
    Component.has_pos_label_connector c
      = Components.hasPosLabelConnectorList c.subs := by
  match c with
  | .mk t s d subs => rfl

/-- The if-chain of the `has_pos_label_connector` loop is a disjunction. -/
theorem Components.hasPosLabelConnectorList_cons (c : Component) (cs : Components) :
    Components.hasPosLabelConnectorList (.cons c cs)
      = (c.typeStr.endsWith "PosLabelConnector\x27>"
          || Component.has_pos_label_connector c
          || Components.hasPosLabelConnectorList cs) := by
  cases h1 : c.typeStr.endsWith "PosLabelConnector\x27>" <;>
    cases h2 : Component.has_pos_label_connector c <;>
      simp [Components.hasPosLabelConnectorList, h1, h2]

mutual
/-- Membership in the value of the `dependencies` property is membership
in the dependencies registered across the tree. -/
theorem Component.mem_dependencies (c : Component) (x : String) :
    x ∈ Component.dependencies c ↔ x ∈ Component.allDeps c := by
  match c with
  | .mk t s deps subs =>
    simp [Component.dependencies, Component.allDeps, List.mem_dedup,
      Components.mem_depsList subs x]
/-- List version of `Component.mem_dependencies`. -/
theorem Components.mem_depsList (cs : Components) (x : String) :
    x ∈ Components.depsList cs ↔ x ∈ Components.allDepsList cs := by
  match cs with
  | .nil => simp [Components.depsList, Components.allDepsList]
  | .cons c cs' =>
    simp [Components.depsList, Components.allDepsList,
      Component.mem_dependencies c x, Components.mem_depsList cs' x]
end

mutual
/-- Membership in the value of the `pos_labels` property is exactly being
the id `'pos-label-' + s.name` of some selector `s` in the tree. -/
theorem Component.mem_pos_labels (c : Component) (x : String) :
    x ∈ Component.pos_labels c ↔
      ∃ s ∈ Component.treeSelectors c, x = "pos-label-" ++ s.name := by
  match c with
  | .mk t sel d subs =>
    cases sel with
    | none =>
      simp [Component.pos_labels, Component.treeSelectors, List.mem_dedup,
        Components.mem_posLabelsList subs x]
    | some s =>
      simp [Component.pos_labels, Component.treeSelectors, List.mem_dedup,
        Components.mem_posLabelsList subs x]
/-- List version of `Component.mem_pos_labels`. -/
theorem Components.mem_posLabelsList (cs : Components) (x : String) :
    x ∈ Components.posLabelsList cs ↔
      ∃ s ∈ Components.treeSelectorsList cs, x = "pos-label-" ++ s.name := by
  match cs with
  | .nil => simp [Components.posLabelsList, Components.treeSelectorsList]
  | .cons c cs' =>
    simp only [Components.posLabelsList, Components.treeSelectorsList,
      List.mem_append, Component.mem_pos_labels c x,
      Components.mem_posLabelsList cs' x]
    constructor
    · rintro (⟨s, hs, rfl⟩ | ⟨s, hs, rfl⟩)
      · exact ⟨s, Or.inl hs, rfl⟩
      · exact ⟨s, Or.inr hs, rfl⟩
    · rintro ⟨s, hs | hs, rfl⟩
      · exact Or.inl ⟨s, hs, rfl⟩
      · exact Or.inr ⟨s, hs, rfl⟩
end

mutual
/-- The `has_pos_label_connector` loop returns `True` exactly when some
strict descendant's type string ends with `"PosLabelConnector'>"`. -/
theorem Component.has_pos_label_connector_iff (c : Component) :
    Component.has_pos_label_connector c = true ↔
      ∃ d ∈ Component.strictDescendants c,
        d.typeStr.endsWith "PosLabelConnector\x27>" = true := by
  match c with
  | .mk t s dp subs =>
    simpa [Component.has_pos_label_connector, Component.strictDescendants]
      using Components.hasPosLabelConnectorList_iff subs
/-- List version of `Component.has_pos_label_connector_iff`. -/
theorem Components.hasPosLabelConnectorList_iff (cs : Components) :
    Components.hasPosLabelConnectorList cs = true ↔
      ∃ d ∈ Components.treeNodesList cs,
        d.typeStr.endsWith "PosLabelConnector\x27>" = true := by
  match cs with
  | .nil => simp [Components.hasPosLabelConnectorList, Components.treeNodesList]
  | .cons c cs' =>
    rw [Components.hasPosLabelConnectorList_cons]
    simp only [Bool.or_eq_true, Components.treeNodesList,
      Component.has_pos_label_connector_iff c,
      Components.hasPosLabelConnectorList_iff cs',
      Component.strictDescendants_eq, Component.treeNodes_eq,
      List.mem_append, List.mem_cons, or_assoc]
    constructor
    · rintro (h | ⟨d, hd, h⟩ | ⟨d, hd, h⟩)
      · exact ⟨c, Or.inl rfl, h⟩
      · exact ⟨d, Or.inr (Or.inl hd), h⟩
      · exact ⟨d, Or.inr (Or.inr hd), h⟩
    · rintro ⟨d, (rfl | hd | hd), h⟩
      · exact Or.inl h
      · exact Or.inr (Or.inl ⟨d, hd, h⟩)
      · exact Or.inr (Or.inr ⟨d, hd, h⟩)
end

mutual
/-- `register_callbacks` records exactly `callbackTrace`, appended to
whatever the `app` had already recorded. -/
theorem Component.register_callbacks_eq_trace (c : Component)
    (app : List Component) :
    Component.register_callbacks c app = app ++ Component.callbackTrace c := by
  match c with
  | .mk t s d subs =>
    rw [Component.register_callbacks, Component.callbackTrace,
      Components.registerCallbacksList_eq_trace subs app, List.append_assoc]
/-- List version of `Component.register_callbacks_eq_trace`. -/
theorem Components.registerCallbacksList_eq_trace (cs : Components)
    (app : List Component) :
    Components.registerCallbacksList cs app
      = app ++ Components.callbackTraceList cs := by
  match cs with
  | .nil => simp [Components.registerCallbacksList, Components.callbackTraceList]
  | .cons c rest =>
    rw [Components.registerCallbacksList, Components.callbackTraceList,
      Components.registerCallbacksList_eq_trace rest,
      Component.register_callbacks_eq_trace c app, List.append_assoc]
end

mutual
/-- The callback trace is a permutation of the tree nodes: every component
of the tree has its `_register_callbacks` invoked exactly once. -/
theorem Component.callbackTrace_perm (c : Component) :
    (Component.callbackTrace c).Perm (Component.treeNodes c) := by
  match c with
  | .mk t s d subs =>
    rw [Component.callbackTrace, Component.treeNodes]
    exact (List.perm_append_singleton _ _).trans
      ((Components.callbackTraceList_perm subs).cons _)
/-- List version of `Component.callbackTrace_perm`. -/
theorem Components.callbackTraceList_perm (cs : Components) :
    (Components.callbackTraceList cs).Perm (Components.treeNodesList cs) := by
  match cs with
  | .nil => rfl
  | .cons c rest =>
    rw [Components.callbackTraceList, Components.treeNodesList]
    exact (Component.callbackTrace_perm c).append
      (Components.callbackTraceList_perm rest)
end

/-- The trace of a `_components` list is the in-order concatenation of the
traces of its elements. -/
theorem Components.callbackTraceList_eq_join (cs : Components) :
    Components.callbackTraceList cs
      = ((Components.toList cs).map Component.callbackTrace).flatten := by
  match cs with
  | .nil => rfl
  | .cons c rest =>
    rw [Components.callbackTraceList, Components.toList, List.map_cons,
      List.flatten_cons, Components.callbackTraceList_eq_join rest]

/-- The value of the `dependencies` property is duplicate-free. -/
theorem Component.dependencies_nodup (c : Component) :
    (Component.dependencies c).Nodup := by
  match c with
  | .mk t s deps subs => exact List.nodup_dedup _

/-- The value of the `pos_labels` property is duplicate-free. -/
theorem Component.pos_labels_nodup (c : Component) :
    (Component.pos_labels c).Nodup := by
  match c with
  | .mk t sel deps subs => exact List.nodup_dedup _

/-- `callbackTrace` unfolded on an abstract component. -/
theorem Component.callbackTrace_eq (c : Component) :
    Component.callbackTrace c
      = Components.callbackTraceList c.subs ++ [c] := by
  match c with
  | .mk t s d subs => rfl

/-- `register_dependencies` called on string arguments appends exactly
those strings, in order, and raises nothing. -/
theorem register_dependencies_strings (ss : List String) (deps : List String) :
    register_dependencies_run deps (ss.map PyVal.str) = (deps ++ ss, false) := by
  induction ss generalizing deps with
  | nil => simp [register_dependencies_run]
  | cons s rest ih => simp [register_dependencies_run, ih]

/-- The loop of `calculate_dependencies` finishes normally on every list
of dependency names, whatever the attribute lookups do. -/
theorem calculate_dependencies_loop_ok (getattr : String → Except String Unit)
    (l : List String) : calculate_dependencies_loop getattr l = .ok () := by
  induction l with
  | nil => rfl
  | cons dep rest ih =>
    rw [calculate_dependencies_loop]
    cases getattr dep <;> simpa using ih

/-! ## The claims -/

/-- **C2.** For every `ExplainerComponent` `c`, the list returned by the
`dependencies` property contains no duplicates and, viewed as a set,
equals the union of the dependency strings registered on `c` itself via
`register_dependencies` (which, called on string arguments, appends
exactly those strings to `self._dependencies` — third conjunct) and the
dependencies of every component in the tree of subcomponents registered
under `c` (`allDeps` collects the `_dependencies` of the whole tree). -/
theorem dependencies_property_correct (c : Component) :
    (Component.dependencies c).Nodup
    ∧ (∀ x, x ∈ Component.dependencies c ↔ x ∈ Component.allDeps c)
    ∧ (∀ deps ss, register_dependencies_run deps (ss.map PyVal.str)
        = (deps ++ ss, false)) :=
  ⟨Component.dependencies_nodup c,
   fun x => Component.mem_dependencies c x,
   fun deps ss => register_dependencies_strings ss deps⟩

/-- **C3.** For every `ExplainerComponent` `c` and every `app`,
`c.register_callbacks(app)` registers on `app` (first conjunct) exactly
the trace obtained by processing each subcomponent of `c._components` in
registration order and only afterwards running `c`'s own
`_register_callbacks` (second conjunct); that trace lists every component
of the tree rooted at `c` exactly once (third conjunct, a permutation of
the tree nodes), each component coming after the traces of all its
registered subcomponents. -/
theorem register_callbacks_correct (c : Component) (app : List Component) :
    Component.register_callbacks c app = app ++ Component.callbackTrace c
    ∧ Component.callbackTrace c
        = ((Components.toList c.subs).map Component.callbackTrace).flatten ++ [c]
    ∧ (Component.callbackTrace c).Perm (Component.treeNodes c) :=
  ⟨Component.register_callbacks_eq_trace c app,
   by rw [Component.callbackTrace_eq, Components.callbackTraceList_eq_join],
   Component.callbackTrace_perm c⟩

/-- **C4.** For every `ExplainerComponent` `c`, the `pos_labels` property
returns, without duplicates, exactly the strings `'pos-label-' + s.name`
for the `PosLabelSelector` instances `s` held in a `selector` attribute of
a component in the tree rooted at `c` (`c` itself included); and for
every selector these strings are exactly the element id that
`PosLabelSelector.layout` gives its dropdown (classifier case) or hidden
input (otherwise). -/
theorem pos_labels_correct (c : Component) :
    (Component.pos_labels c).Nodup
    ∧ (∀ x, x ∈ Component.pos_labels c ↔
        ∃ s ∈ Component.treeSelectors c, x = "pos-label-" ++ s.name)
    ∧ (∀ (s : PosLabelSelector) (b : Bool),
        (s.layout b).elementId = "pos-label-" ++ s.name) :=
  ⟨Component.pos_labels_nodup c,
   fun x => Component.mem_pos_labels c x,
   fun s b => by cases b <;> rfl⟩

/-- **C7.** For every `ExplainerComponent` `c`,
`has_pos_label_connector()` returns `True` if and only if some component
in the tree of subcomponents registered under `c` (direct or indirect
subcomponents, never `c` itself) has a type whose string representation
ends with `"PosLabelConnector'>"`. -/
theorem has_pos_label_connector_correct (c : Component) :
    Component.has_pos_label_connector c = true ↔
      ∃ d ∈ Component.strictDescendants c,
        d.typeStr.endsWith "PosLabelConnector\x27>" = true := by
  rw [Component.has_pos_label_connector_eq, Component.strictDescendants_eq]
  exact Components.hasPosLabelConnectorList_iff c.subs

/-- **C8.** For every `ExplainerComponent`, `calculate_dependencies()`
always returns normally regardless of the explainer: each
`getattr(self.explainer, dep)` runs inside `try`, and when it raises, the
`except` branch merely constructs a `ValueError` without raising it, so no
dependency failure is ever signalled to the caller. -/
theorem calculate_dependencies_total (getattr : String → Except String Unit)
    (c : Component) : calculate_dependencies getattr c = .ok () :=
  calculate_dependencies_loop_ok getattr (Component.dependencies c)

/-! ## Helper lemmas on the ordered-dict operations -/

/-- A member's name is a key of the dict. -/
theorem hasKey_of_mem {d : List Param} {p : Param} (hp : p ∈ d) :
    hasKey d p.name = true := by
  unfold hasKey
  exact List.any_eq_true.mpr ⟨p, hp, by simp⟩

/-- `hasKey` distributes over append. -/
theorem hasKey_append (d1 d2 : List Param) (k : String) :
    hasKey (d1 ++ d2) k = (hasKey d1 k || hasKey d2 k) :=
  List.any_append

/-- `dict.update` with entries whose keys are all fresh is an append. -/
theorem dictUpdate_disjoint (d s : List Param)
    (h : ∀ q ∈ s, hasKey d q.name = false) :
    dictUpdate d s = d ++ s := by
  unfold dictUpdate
  have hmap : ∀ p ∈ d,
      (match s.find? (fun q => q.name == p.name) with
        | some q => q
        | none => p) = (fun p => p) p := by
    intro p hp
    have hnone : s.find? (fun q => q.name == p.name) = none := by
      refine List.find?_eq_none.mpr (fun q hq hbeq => ?_)
      have hname : q.name = p.name := by simpa using hbeq
      have hfalse := h q hq
      rw [hname] at hfalse
      rw [hasKey_of_mem hp] at hfalse
      simp at hfalse
    rw [hnone]
  have hfilter : s.filter (fun q => !(hasKey d q.name)) = s :=
    List.filter_eq_self.mpr (fun q hq => by rw [h q hq]; rfl)
  rw [List.map_congr_left hmap, List.map_id', hfilter]

/-- Every entry produced by the dict comprehension of `delegates_kwargs`
has a key that is fresh for the signature built so far. -/
theorem hasKey_false_of_mem_s2OfTarget {sigd target : List Param} {q : Param}
    (hq : q ∈ s2OfTarget sigd target) : hasKey sigd q.name = false := by
  unfold s2OfTarget at hq
  have := (List.mem_filter.mp hq).2
  simp only [Bool.and_eq_true, Bool.not_eq_true'] at this
  exact this.2

/-- When the target has no defaulted parameter named `kwargs`, the dict
comprehension produces no entry keyed `kwargs`. -/
theorem hasKey_s2OfTarget_kwargs {sigd target : List Param}
    (h : noDefaultedKwargs target = true) :
    hasKey (s2OfTarget sigd target) "kwargs" = false := by
  unfold hasKey
  rw [Bool.eq_false_iff]
  intro hany
  obtain ⟨q, hq, hname⟩ := List.any_eq_true.mp hany
  unfold s2OfTarget at hq
  have hq2 := List.mem_filter.mp hq
  have hdef : q.hasDefault = true := by
    have h2 := hq2.2
    simp only [Bool.and_eq_true] at h2
    exact h2.1
  have hall := (List.all_eq_true.mp h) q hq2.1
  rw [hname, hdef] at hall
  simp at hall

/-- Popping `kwargs` from a signature that has it yields the original
`kwargs` parameter and the signature with it removed. -/
theorem dictPop_kwargs {sig : List Param} (hk : hasKey sig "kwargs" = true) :
    dictPop sig "kwargs" = some (kwargsParamOf sig, removeKwargs sig) := by
  unfold hasKey at hk
  obtain ⟨p, hp, hname⟩ := List.any_eq_true.mp hk
  unfold dictPop kwargsParamOf removeKwargs
  cases hfind : sig.find? (fun r => r.name == "kwargs") with
  | none => exact absurd hname (by simpa using List.find?_eq_none.mp hfind p hp)
  | some q => rfl

/-- The popped `kwargs` parameter is indeed named `kwargs`. -/
theorem kwargsParamOf_name {sig : List Param} (hk : hasKey sig "kwargs" = true) :
    (kwargsParamOf sig).name = "kwargs" := by
  unfold hasKey at hk
  obtain ⟨p, hp, hname⟩ := List.any_eq_true.mp hk
  unfold kwargsParamOf
  cases hfind : sig.find? (fun r => r.name == "kwargs") with
  | none => exact absurd hname (by simpa using List.find?_eq_none.mp hfind p hp)
  | some q => simpa using List.find?_some hfind

/-- In a signature with pairwise-distinct parameter names, removing the
`kwargs` parameter removes the key `kwargs` altogether. -/
theorem hasKey_removeKwargs {sig : List Param}
    (hnd : (sig.map Param.name).Nodup) :
    hasKey (removeKwargs sig) "kwargs" = false := by
  induction sig with
  | nil => rfl
  | cons p rest ih =>
    rw [List.map_cons, List.nodup_cons] at hnd
    unfold removeKwargs
    by_cases hp : p.name = "kwargs"
    · rw [List.eraseP_cons_of_pos (by simp [hp])]
      rw [Bool.eq_false_iff]
      intro hany
      obtain ⟨q, hq, hname⟩ := List.any_eq_true.mp hany
      exact hnd.1 (by rw [hp, ← show q.name = "kwargs" by simpa using hname]
                      exact List.mem_map_of_mem Param.name hq)
    · rw [List.eraseP_cons_of_neg (by simp [hp])]
      unfold hasKey
      rw [List.any_cons]
      have := ih hnd.2
      unfold removeKwargs hasKey at this
      rw [this]
      simp [hp]

/-- The loop over `f.__bases__`: when no base has a defaulted `kwargs`
parameter and the accumulated signature has no `kwargs` key, the repeated
`dict.update` is the claimed repeated append, and the result still has no
`kwargs` key. -/
theorem foldl_dictUpdate_bases (bases : List (List Param)) (acc : List Param)
    (hacc : hasKey acc "kwargs" = false)
    (hsafe : bases.all noDefaultedKwargs = true) :
    bases.foldl (fun sigd base => dictUpdate sigd (s2OfTarget sigd base)) acc
      = specAppendBases acc bases
    ∧ hasKey (specAppendBases acc bases) "kwargs" = false := by
  induction bases generalizing acc with
  | nil => exact ⟨rfl, hacc⟩
  | cons base rest ih =>
    rw [List.all_cons, Bool.and_eq_true] at hsafe
    have hstep : dictUpdate acc (s2OfTarget acc base)
        = acc ++ s2OfTarget acc base :=
      dictUpdate_disjoint _ _ (fun q hq => hasKey_false_of_mem_s2OfTarget hq)
    have hacc' : hasKey (acc ++ s2OfTarget acc base) "kwargs" = false := by
      rw [hasKey_append, hacc, hasKey_s2OfTarget_kwargs hsafe.1]
      rfl
    have hspec : specAppendBases acc (base :: rest)
        = specAppendBases (acc ++ s2OfTarget acc base) rest := by
      unfold specAppendBases
      rw [List.foldl_cons]
    refine ⟨?_, ?_⟩
    · rw [List.foldl_cons, hstep, hspec]
      exact (ih _ hacc' hsafe.2).1
    · rw [hspec]
      exact (ih _ hacc' hsafe.2).2

/-- `delegates_kwargs` equals the claimed parameter-list computation,
gated by the signature validation of line 44: under the hypotheses below
the rebuilt parameter dict is exactly `delegates_kwargs_claimed`, so the
decorator installs it when `sig.replace` accepts it and raises
`ValueError` otherwise. -/
theorem delegates_kwargs_eq_validated (toArg : Option (List Param)) (keep : Bool)
    (bases : List (List Param)) (sig : List Param)
    (hk : hasKey sig "kwargs" = true)
    (hnd : (sig.map Param.name).Nodup)
    (hsafe : targetsSafe toArg bases = true) :
    delegates_kwargs toArg keep bases sig
      = if validParameters (delegates_kwargs_claimed toArg keep bases sig)
        then .ok (delegates_kwargs_claimed toArg keep bases sig)
        else .error "ValueError" := by
  unfold delegates_kwargs delegates_kwargs_claimed
  rw [dictPop_kwargs hk]
  cases toArg with
  | some target =>
    unfold targetsSafe at hsafe
    have hstep : dictUpdate (removeKwargs sig) (s2OfTarget (removeKwargs sig) target)
        = removeKwargs sig ++ s2OfTarget (removeKwargs sig) target :=
      dictUpdate_disjoint _ _ (fun q hq => hasKey_false_of_mem_s2OfTarget hq)
    cases keep with
    | false => simp [hstep]
    | true =>
      have hnk : hasKey (removeKwargs sig ++ s2OfTarget (removeKwargs sig) target)
          "kwargs" = false := by
        rw [hasKey_append, hasKey_removeKwargs hnd, hasKey_s2OfTarget_kwargs hsafe]
        rfl
      have happend : dictUpdate
          (removeKwargs sig ++ s2OfTarget (removeKwargs sig) target)
          [kwargsParamOf sig]
          = (removeKwargs sig ++ s2OfTarget (removeKwargs sig) target)
            ++ [kwargsParamOf sig] := by
        apply dictUpdate_disjoint
        intro q hq
        rw [List.mem_singleton.mp hq, kwargsParamOf_name hk]
        exact hnk
      simp [hstep, happend]
  | none =>
    unfold targetsSafe at hsafe
    have h := foldl_dictUpdate_bases bases (removeKwargs sig)
      (hasKey_removeKwargs hnd) hsafe
    cases keep with
    | false => simp [h.1]
    | true =>
      have happend : dictUpdate (specAppendBases (removeKwargs sig) bases)
          [kwargsParamOf sig]
          = specAppendBases (removeKwargs sig) bases ++ [kwargsParamOf sig] := by
        apply dictUpdate_disjoint
        intro q hq
        rw [List.mem_singleton.mp hq, kwargsParamOf_name hk]
        exact h.2
      simp [h.1, happend]

/-- **C1** fails as stated: with `keep=True` and a delegation target
`def g(z=1, kwargs=3)` — which has a *defaulted* parameter itself named
`kwargs`, legal Python — applied to a function `(self, **kwargs)`, the
assignment `sigd[\x27kwargs\x27] = k` overwrites the appended `kwargs=3`
entry in place, so the decorator succeeds (the rebuilt list
`(self, z=1, **kwargs)` passes the `Signature` validation of line 44) but
the resulting signature is not the claimed one, in which the appended
defaults stay put and the original `kwargs` parameter is re-appended at
the very end. -/
theorem delegates_kwargs_claim_counterexample :
    delegates_kwargs
        (some [⟨"z", .positional_or_keyword, true⟩,
               ⟨"kwargs", .positional_or_keyword, true⟩]) true []
        [⟨"self", .positional_or_keyword, false⟩,
         ⟨"kwargs", .var_keyword, false⟩]
      ≠ .ok (delegates_kwargs_claimed
          (some [⟨"z", .positional_or_keyword, true⟩,
                 ⟨"kwargs", .positional_or_keyword, true⟩]) true []
          [⟨"self", .positional_or_keyword, false⟩,
           ⟨"kwargs", .var_keyword, false⟩]) := by
  decide

/-- **C1** (amended).  For every function whose signature contains a
parameter named `kwargs` (signatures have pairwise-distinct parameter
names), provided no delegation target has a defaulted parameter itself
named `kwargs`, and provided the claimed parameter list passes the
parameter validation that `sig.replace` performs on line 44 (kinds
non-decreasing, no defaultless positional parameter after a defaulted one
of the same kind run, no duplicate names — otherwise the decorator raises
`ValueError` and rewrites nothing), `delegates_kwargs(to, keep)` produces
exactly the claimed signature: the `kwargs` parameter is removed; every
parameter of the delegation target (`to` when given, otherwise the
`__init__` of each class in `f.__bases__` in turn) that has a default
value and whose name is not already in the signature is appended, in
order; all original parameters other than `kwargs` are kept unchanged and
in their original order; and when `keep=True` the original `kwargs`
parameter is re-appended at the end. -/
theorem delegates_kwargs_correct (toArg : Option (List Param)) (keep : Bool)
    (bases : List (List Param)) (sig : List Param)
    (hk : hasKey sig "kwargs" = true)
    (hnd : (sig.map Param.name).Nodup)
    (hsafe : targetsSafe toArg bases = true)
    (hvalid : validParameters (delegates_kwargs_claimed toArg keep bases sig)
      = true) :
    delegates_kwargs toArg keep bases sig
      = .ok (delegates_kwargs_claimed toArg keep bases sig) := by
  rw [delegates_kwargs_eq_validated toArg keep bases sig hk hnd hsafe,
    if_pos hvalid]

/-- Witness for `delegates_kwargs_correct`: a class with
`__init__(self, a=1, **kwargs)` and two bases whose `__init__` methods
take `(self, b=2, a=3)` and `(c=4)`, with `keep=True`; the resulting
`(self, a=1, b=2, c=4, **kwargs)` is a valid signature. -/
theorem delegates_kwargs_correct_witness :
    hasKey [⟨"self", .positional_or_keyword, false⟩,
        ⟨"a", .positional_or_keyword, true⟩,
        ⟨"kwargs", .var_keyword, false⟩] "kwargs" = true
    ∧ (([⟨"self", .positional_or_keyword, false⟩,
        ⟨"a", .positional_or_keyword, true⟩,
        ⟨"kwargs", .var_keyword, false⟩] : List Param).map Param.name).Nodup
    ∧ targetsSafe none
        [[⟨"self", .positional_or_keyword, false⟩,
          ⟨"b", .positional_or_keyword, true⟩,
          ⟨"a", .positional_or_keyword, true⟩],
         [⟨"c", .positional_or_keyword, true⟩]] = true
    ∧ validParameters (delegates_kwargs_claimed none true
        [[⟨"self", .positional_or_keyword, false⟩,
          ⟨"b", .positional_or_keyword, true⟩,
          ⟨"a", .positional_or_keyword, true⟩],
         [⟨"c", .positional_or_keyword, true⟩]]
        [⟨"self", .positional_or_keyword, false⟩,
         ⟨"a", .positional_or_keyword, true⟩,
         ⟨"kwargs", .var_keyword, false⟩]) = true
    ∧ delegates_kwargs none true
        [[⟨"self", .positional_or_keyword, false⟩,
          ⟨"b", .positional_or_keyword, true⟩,
          ⟨"a", .positional_or_keyword, true⟩],
         [⟨"c", .positional_or_keyword, true⟩]]
        [⟨"self", .positional_or_keyword, false⟩,
         ⟨"a", .positional_or_keyword, true⟩,
         ⟨"kwargs", .var_keyword, false⟩]
      = .ok (delegates_kwargs_claimed none true
          [[⟨"self", .positional_or_keyword, false⟩,
            ⟨"b", .positional_or_keyword, true⟩,
            ⟨"a", .positional_or_keyword, true⟩],
           [⟨"c", .positional_or_keyword, true⟩]]
          [⟨"self", .positional_or_keyword, false⟩,
           ⟨"a", .positional_or_keyword, true⟩,
           ⟨"kwargs", .var_keyword, false⟩]) :=
  ⟨by decide, by decide, by decide, by decide,
   delegates_kwargs_correct none true _ _
     (by decide) (by decide) (by decide) (by decide)⟩

/-- At a real signature `__init__(self, *, x=1, **kwargs)`, appending a
base's defaulted positional-or-keyword parameter `b=2` places a smaller
kind after `KEYWORD_ONLY`, so line 44 raises
`ValueError: wrong parameter order` and no signature is rewritten. -/
theorem delegates_kwargs_kind_violation :
    delegates_kwargs none false
        [[⟨"self", .positional_or_keyword, false⟩,
          ⟨"b", .positional_or_keyword, true⟩]]
        [⟨"self", .positional_or_keyword, false⟩,
         ⟨"x", .keyword_only, true⟩,
         ⟨"kwargs", .var_keyword, false⟩]
      = .error "ValueError" := by
  decide

/-- The inner loop of `register_components` on an iterable all of whose
non-component elements have `__name__`: appends exactly the component
elements, in order, and raises nothing. -/
theorem register_components_inner_safe (xs : List PyVal) (comps : List Component)
    (h : xs.all (fun x =>
      match x with
      | .comp _ => true
      | .other hasName => hasName
      | _ => false) = true) :
    register_components_inner comps xs
      = (comps ++ xs.filterMap (fun x =>
          match x with
          | .comp c => some c
          | _ => none), false) := by
  induction xs generalizing comps with
  | nil => simp [register_components_inner]
  | cons x rest ih =>
    rw [List.all_cons, Bool.and_eq_true] at h
    cases x with
    | comp c =>
      rw [register_components_inner, ih _ h.2]
      simp
    | str s => simp at h
    | iterable ys => simp at h
    | other b =>
      have hb : b = true := h.1
      subst hb
      rw [register_components_inner]
      simpa using ih _ h.2

/-- `register_components` on arguments that are all processed without an
`AttributeError` appends exactly the component arguments and the
component elements of iterable arguments, in order. -/
theorem register_components_run_safe (args : List PyVal) (comps : List Component)
    (h : args.all argSafe = true) :
    register_components_run comps args
      = (comps ++ extractOneLevel args, false) := by
  induction args generalizing comps with
  | nil => simp [register_components_run, extractOneLevel]
  | cons arg rest ih =>
    rw [List.all_cons, Bool.and_eq_true] at h
    cases arg with
    | comp c =>
      rw [register_components_run, ih _ h.2]
      simp [extractOneLevel]
    | str s =>
      have hs : s.isEmpty = true := h.1
      rw [register_components_run, if_pos hs]
      rw [ih _ h.2]
      simp [extractOneLevel]
    | iterable xs =>
      have hxs : xs.all (fun x =>
          match x with
          | .comp _ => true
          | .other hasName => hasName
          | _ => false) = true := h.1
      rw [register_components_run, register_components_inner_safe xs comps hxs]
      simp only [Bool.false_eq_true, if_false]
      rw [ih _ h.2]
      simp [extractOneLevel]
    | other b =>
      have hb : b = true := h.1
      subst hb
      rw [register_components_run, if_pos rfl, ih _ h.2]
      simp [extractOneLevel]

/-- **C5** fails as stated: an argument that is neither an
`ExplainerComponent` nor iterable and has no `__name__` attribute (e.g.
the int `5`) is not silently ignored — the skip path evaluates
`print(f"{comp.__name__} is not an ExplainerComponent ...")`, and the
attribute lookup `comp.__name__` raises `AttributeError`. -/
theorem register_components_claim_counterexample :
    register_components_run [] [PyVal.other false] ≠ ([], false) := by
  decide

/-- **C5** (amended).  For every `ExplainerComponent` `c` and every
sequence of `register_components` calls (each call starts from the
`_components` list the previous ones produced, here the arbitrary
`comps`), exactly those arguments that are `ExplainerComponent` instances,
plus those elements of iterable arguments that are `ExplainerComponent`
instances, are appended to `c._components` in the order given — provided
every skipped argument or element has a `__name__` attribute (otherwise
the skip path raises `AttributeError`, keeping the components already
appended, as the counterexample shows); components nested more than one
iterable level deep are never registered (second conjunct: the nested
iterable element itself raises before being traversed); and `_components`
only ever holds `ExplainerComponent` instances (the result is a
`List Component` by construction). -/
theorem register_components_correct (comps : List Component) (args : List PyVal)
    (h : args.all argSafe = true) :
    register_components_run comps args = (comps ++ extractOneLevel args, false)
    ∧ ∀ (cs : List Component) (c : Component),
        register_components_run cs [.iterable [.iterable [.comp c]]]
          = (cs, true) :=
  ⟨register_components_run_safe args comps h, fun cs c => rfl⟩

/-- Witness for `register_components_correct`: registering a component, a
list holding a component and a class object, a bare class object, and an
empty string appends exactly the two components. -/
theorem register_components_correct_witness :
    ([PyVal.comp (.mk "A" none [] .nil),
      PyVal.iterable [PyVal.comp (.mk "B" none [] .nil), PyVal.other true],
      PyVal.other true, PyVal.str ""].all argSafe) = true
    ∧ register_components_run []
        [PyVal.comp (.mk "A" none [] .nil),
         PyVal.iterable [PyVal.comp (.mk "B" none [] .nil), PyVal.other true],
         PyVal.other true, PyVal.str ""]
      = ([.mk "A" none [] .nil, .mk "B" none [] .nil], false) :=
  ⟨by decide,
   by rw [(register_components_correct [] _ (by decide)).1]; decide⟩

mutual
/-- The value returned by a (stateful) `dependencies` read is, as a set,
the registered dependencies of the whole tree, whatever state the tree is
in. -/
theorem Component.mem_dependenciesRun_fst (c : Component) (x : String) :
    x ∈ (Component.dependenciesRun c).1 ↔ x ∈ Component.allDeps c := by
  match c with
  | .mk t s d subs =>
    simp [Component.dependenciesRun, Component.allDeps, List.mem_dedup,
      Components.mem_dependenciesRunList_fst subs x]
/-- List version of `Component.mem_dependenciesRun_fst`. -/
theorem Components.mem_dependenciesRunList_fst (cs : Components) (x : String) :
    x ∈ (Components.dependenciesRunList cs).1 ↔ x ∈ Components.allDepsList cs := by
  match cs with
  | .nil => simp [Components.dependenciesRunList, Components.allDepsList]
  | .cons c cs' =>
    simp [Components.dependenciesRunList, Components.allDepsList,
      Component.mem_dependenciesRun_fst c x,
      Components.mem_dependenciesRunList_fst cs' x]
end

mutual
/-- A (stateful) `dependencies` read changes the dependencies stored in
the tree only up to duplication: the set of all registered dependency
strings is preserved. -/
theorem Component.allDeps_dependenciesRun_snd (c : Component) (x : String) :
    x ∈ Component.allDeps (Component.dependenciesRun c).2 ↔
      x ∈ Component.allDeps c := by
  match c with
  | .mk t s d subs =>
    simp only [Component.dependenciesRun, Component.allDeps, List.mem_append]
    rw [Components.mem_dependenciesRunList_fst subs x]
    rw [Components.allDepsList_dependenciesRunList_snd subs x]
    tauto
/-- List version of `Component.allDeps_dependenciesRun_snd`. -/
theorem Components.allDepsList_dependenciesRunList_snd (cs : Components) (x : String) :
    x ∈ Components.allDepsList (Components.dependenciesRunList cs).2 ↔
      x ∈ Components.allDepsList cs := by
  match cs with
  | .nil => simp [Components.dependenciesRunList, Components.allDepsList]
  | .cons c cs' =>
    simp only [Components.dependenciesRunList, Components.allDepsList,
      List.mem_append]
    rw [Component.allDeps_dependenciesRun_snd c x]
    rw [Components.allDepsList_dependenciesRunList_snd cs' x]
end

/-- **C9.** Reading the `dependencies` property mutates the component it
is read on: the local `deps` aliases `self._dependencies`, so after a
read the component's own `_dependencies` has absorbed every subcomponent's
returned dependency list (first conjunct); when the subcomponents
contribute anything, a second read appends those strings again, so
`_dependencies` grows strictly and holds duplicates (second conjunct);
yet the deduplicated set returned is the same on every read (third
conjunct). -/
theorem dependencies_property_mutates (t : String)
    (sel : Option PosLabelSelector) (d : List String) (subs : Components) :
    let c := Component.mk t sel d subs
    let r1 := Component.dependenciesRun c
    let r2 := Component.dependenciesRun r1.2
    r1.2.rootDeps = d ++ (Components.dependenciesRunList subs).1
    ∧ ((Components.dependenciesRunList subs).1 ≠ [] →
        ¬ (r2.2.rootDeps.Nodup)
        ∧ r1.2.rootDeps.length < r2.2.rootDeps.length)
    ∧ (∀ x, x ∈ r2.1 ↔ x ∈ r1.1) := by
  intro c r1 r2
  have hroot1 : r1.2.rootDeps
      = d ++ (Components.dependenciesRunList subs).1 := rfl
  refine ⟨rfl, ?_, ?_⟩
  · intro hne
    obtain ⟨x, hx⟩ := List.exists_mem_of_ne_nil _ hne
    have hx2 : x ∈ (Components.dependenciesRunList
        (Components.dependenciesRunList subs).2).1 := by
      rw [Components.mem_dependenciesRunList_fst,
        Components.allDepsList_dependenciesRunList_snd,
        ← Components.mem_dependenciesRunList_fst]
      exact hx
    have hroot2 : r2.2.rootDeps
        = (d ++ (Components.dependenciesRunList subs).1)
          ++ (Components.dependenciesRunList
              (Components.dependenciesRunList subs).2).1 := rfl
    constructor
    · rw [hroot2]
      intro hnd
      exact (List.nodup_append.mp hnd).2.2
        (List.mem_append.mpr (Or.inr hx)) hx2
    · rw [hroot1, hroot2]
      simp only [List.length_append]
      have : 0 < (Components.dependenciesRunList
          (Components.dependenciesRunList subs).2).1.length :=
        List.length_pos.mpr (List.ne_nil_of_mem hx2)
      omega
  · intro x
    calc x ∈ r2.1
        ↔ x ∈ Component.allDeps r1.2 := Component.mem_dependenciesRun_fst r1.2 x
      _ ↔ x ∈ Component.allDeps c := Component.allDeps_dependenciesRun_snd c x
      _ ↔ x ∈ r1.1 := (Component.mem_dependenciesRun_fst c x).symm

/-- Witness for `dependencies_property_mutates`: a component with no own
dependencies and one subcomponent that registered `"shap_values"`; after
two reads the parent's `_dependencies` is no longer duplicate-free. -/
theorem dependencies_property_mutates_witness :
    (Components.dependenciesRunList
      (.cons (.mk "B" none ["shap_values"] .nil) .nil)).1 ≠ []
    ∧ ¬ ((Component.dependenciesRun
          (Component.dependenciesRun
            (.mk "A" none []
              (.cons (.mk "B" none ["shap_values"] .nil) .nil))).2).2.rootDeps.Nodup) :=
  ⟨by decide,
   ((dependencies_property_mutates "A" none []
      (.cons (.mk "B" none ["shap_values"] .nil) .nil)).2.1 (by decide)).1⟩

/-- **C10.** After `ExplainerComponent.__init__` returns (the
`header_mode` argument, which would raise `ValueError`, being left at its
`None` default), `self.name` is never `None`: a `None` `name` argument is
replaced by the generated `shortuuid` string — of length 10, which is
what `random(length=10)` yields — and any other `name` is stored
unchanged; `_components` and `_dependencies` are initialized empty. -/
theorem explainer_component_init_correct (title name : Option String)
    (uuid : String) (hlen : uuid.length = 10) :
    ∃ st, ExplainerComponent_init title name none uuid = .ok st
    ∧ st.name.isSome
    ∧ (∀ s, name = some s → st.name = some s)
    ∧ (name = none → st.name = some uuid ∧ (st.name.getD "").length = 10)
    ∧ st.title = title
    ∧ st.components = .nil
    ∧ st.dependencies = [] := by
  refine ⟨{ title := title,
            name := match name with
              | none => some uuid
              | some s => some s,
            components := .nil, dependencies := [] }, rfl, ?_, ?_, ?_, rfl, rfl, rfl⟩
  · cases name <;> simp
  · intro s hs
    subst hs
    rfl
  · intro hn
    subst hn
    exact ⟨rfl, hlen⟩

/-- Witness for `explainer_component_init_correct`: initializing with
`name=None` and the generated string `"hVmZaEfYWN"`. -/
theorem explainer_component_init_correct_witness :
    ("hVmZaEfYWN" : String).length = 10
    ∧ ∃ st, ExplainerComponent_init (some "Model Stats") none none "hVmZaEfYWN"
        = .ok st
    ∧ st.name.isSome
    ∧ (∀ s, (none : Option String) = some s → st.name = some s)
    ∧ ((none : Option String) = none →
        st.name = some "hVmZaEfYWN" ∧ (st.name.getD "").length = 10)
    ∧ st.title = some "Model Stats"
    ∧ st.components = .nil
    ∧ st.dependencies = [] :=
  ⟨by decide,
   explainer_component_init_correct (some "Model Stats") none "hVmZaEfYWN"
     (by decide)⟩

/-- **C6.** Each of the six composite classes registers, during
`__init__`, every subcomponent it constructs — including the connector
components that wire shared state (cutoff, index, highlight,
summary/dependence) to the visual components — so that after construction
each constructed subcomponent is an element of the composite's
`_components` list. -/
theorem composites_register_all_subcomponents :
    (∀ p cm lc cl ra pa cp cc : Component,
      p ∈ ClassifierModelStatsComposite_components p cm lc cl ra pa cp cc
      ∧ cm ∈ ClassifierModelStatsComposite_components p cm lc cl ra pa cp cc
      ∧ lc ∈ ClassifierModelStatsComposite_components p cm lc cl ra pa cp cc
      ∧ cl ∈ ClassifierModelStatsComposite_components p cm lc cl ra pa cp cc
      ∧ ra ∈ ClassifierModelStatsComposite_components p cm lc cl ra pa cp cc
      ∧ pa ∈ ClassifierModelStatsComposite_components p cm lc cl ra pa cp cc
      ∧ cp ∈ ClassifierModelStatsComposite_components p cm lc cl ra pa cp cc
      ∧ cc ∈ ClassifierModelStatsComposite_components p cm lc cl ra pa cp cc)
    ∧ (∀ pva ms rs rvc : Component,
      pva ∈ RegressionModelStatsComposite_components pva ms rs rvc
      ∧ ms ∈ RegressionModelStatsComposite_components pva ms rs rvc
      ∧ rs ∈ RegressionModelStatsComposite_components pva ms rs rvc
      ∧ rvc ∈ RegressionModelStatsComposite_components pva ms rs rvc)
    ∧ (∀ ix su co pd ct ic : Component,
      ix ∈ IndividualPredictionsComposite_components ix su co pd ct ic
      ∧ su ∈ IndividualPredictionsComposite_components ix su co pd ct ic
      ∧ co ∈ IndividualPredictionsComposite_components ix su co pd ct ic
      ∧ pd ∈ IndividualPredictionsComposite_components ix su co pd ct ic
      ∧ ct ∈ IndividualPredictionsComposite_components ix su co pd ct ic
      ∧ ic ∈ IndividualPredictionsComposite_components ix su co pd ct ic)
    ∧ (∀ ss sd cn : Component,
      ss ∈ ShapDependenceComposite_components ss sd cn
      ∧ sd ∈ ShapDependenceComposite_components ss sd cn
      ∧ cn ∈ ShapDependenceComposite_components ss sd cn)
    ∧ (∀ ts td cn : Component,
      ts ∈ ShapInteractionsComposite_components ts td cn
      ∧ td ∈ ShapInteractionsComposite_components ts td cn
      ∧ cn ∈ ShapInteractionsComposite_components ts td cn)
    ∧ (∀ ix tr dt dg ic hc : Component,
      ix ∈ DecisionTreesComposite_components ix tr dt dg ic hc
      ∧ tr ∈ DecisionTreesComposite_components ix tr dt dg ic hc
      ∧ dt ∈ DecisionTreesComposite_components ix tr dt dg ic hc
      ∧ dg ∈ DecisionTreesComposite_components ix tr dt dg ic hc
      ∧ ic ∈ DecisionTreesComposite_components ix tr dt dg ic hc
      ∧ hc ∈ DecisionTreesComposite_components ix tr dt dg ic hc) := by
  refine ⟨fun p cm lc cl ra pa cp cc => ?_, fun pva ms rs rvc => ?_,
    fun ix su co pd ct ic => ?_, fun ss sd cn => ?_, fun ts td cn => ?_,
    fun ix tr dt dg ic hc => ?_⟩ <;>
  · simp [ClassifierModelStatsComposite_components,
      RegressionModelStatsComposite_components,
      IndividualPredictionsComposite_components,
      ShapDependenceComposite_components,
      ShapInteractionsComposite_components,
      DecisionTreesComposite_components,
      register_components_run, register_components_inner]
